import Mathlib

/-!
Verification of the reliable-UDP file-transfer transport in this repository
(part1: SACK-based stop-and-wait window sender/receiver; part2: CUBIC
congestion-controlled sender).  Python sources are embedded shallowly:
byte strings become `List ℕ` (one element per byte, each < 256), Python
dicts with default values become functions, Python sets become `Finset ℕ`,
wall-clock floating-point quantities become `ℚ`, and the sender's event
loop becomes a labelled step relation.
-/

namespace Transport

/-- Maximum segment size in bytes: `MSS = 1180` in every source file. -/
def MSS : ℕ := 1180

/-- Header size in bytes (`HEADER_SIZE = 20`). -/
def HEADER_SIZE : ℕ := 20

/-! ## Byte codec (struct.pack / struct.unpack) -/

/-- Big-endian 4-byte encoding of an unsigned 32-bit value, as produced by
`struct.pack` with format `!I`. -/
def packU32 (n : ℕ) : List ℕ :=
  [n / 2 ^ 24 % 256, n / 2 ^ 16 % 256, n / 2 ^ 8 % 256, n % 256]

/-- Big-endian decoding of four bytes into an unsigned 32-bit value, as
`struct.unpack` with format `!I`. -/
def unpackU32 (b0 b1 b2 b3 : ℕ) : ℕ :=
  ((b0 * 256 + b1) * 256 + b2) * 256 + b3

/-- Big-endian 2-byte encoding of an unsigned 16-bit value (`!H`). -/
def packU16 (n : ℕ) : List ℕ :=
  [n / 256 % 256, n % 256]

/-- Big-endian decoding of two bytes into an unsigned 16-bit value (`!H`). -/
def unpackU16 (b0 b1 : ℕ) : ℕ :=
  b0 * 256 + b1

theorem unpackU32_packU32 (n : ℕ) (h : n < 2 ^ 32) :
    unpackU32 (n / 2 ^ 24 % 256) (n / 2 ^ 16 % 256) (n / 2 ^ 8 % 256) (n % 256) = n := by
  simp only [unpackU32]
  omega

theorem unpackU16_packU16 (n : ℕ) (h : n < 2 ^ 16) :
    unpackU16 (n / 256 % 256) (n % 256) = n := by
  simp only [unpackU16]
  omega

/-! ## RTT estimators

Three senders maintain an RTT estimate:
* part1 `Server.py` (`update_rtt`, lines 70-80),
* part2 `p2_server.py` (`update_rtt`, lines 266-274),
* part2 `working_sourbah/p2_server.py` (inline in `receive_acks`, lines 154-162).
-/

/-- RTT-estimator state of the part1 sender (`Server.py`):
`estimated_rtt`, `dev_rtt`, `timeout_interval`, initialised to
0.5 / 0.25 / 0.8 in `__init__`. -/
@[ext]
structure P1Rtt where
  estimated_rtt : ℚ
  dev_rtt : ℚ
  timeout_interval : ℚ
deriving DecidableEq

/-- Translation of part1 `Server.py` `update_rtt`.  The "first measurement"
test is the sentinel comparison `estimated_rtt == 0.5`.  On subsequent
samples the source updates `estimated_rtt` first and then `dev_rtt` using
the already-updated estimate; the timeout is `estimated_rtt + 3 * dev_rtt`
clamped to [0.2, 2.5]. -/
def P1Rtt.update_rtt (s : P1Rtt) (sample_rtt : ℚ) : P1Rtt :=
  let p : ℚ × ℚ :=
    if s.estimated_rtt = 1 / 2 then
      (sample_rtt, sample_rtt / 2)
    else
      let est := (1 - 1 / 8) * s.estimated_rtt + (1 / 8) * sample_rtt
      let dev := (1 - 1 / 4) * s.dev_rtt + (1 / 4) * |sample_rtt - est|
      (est, dev)
  let ti := p.1 + 3 * p.2
  ⟨p.1, p.2, max (1 / 5) (min ti (5 / 2))⟩

/-- RTT-estimator state of the part2 sender (`p2_server.py`):
`estimated_rtt`, `dev_rtt`, `rto`, initialised to 1.0 / 0 / 1.0. -/
@[ext]
structure P2Rtt where
  estimated_rtt : ℚ
  dev_rtt : ℚ
  rto : ℚ
deriving DecidableEq

/-- Translation of part2 `p2_server.py` `update_rtt`.  The "first
measurement" test is the sentinel comparison
`estimated_rtt == INITIAL_TIMEOUT` (1.0 s).  On subsequent samples
`dev_rtt` is updated first (with the old estimate) and then
`estimated_rtt`; the RTO is `estimated_rtt + 4 * dev_rtt` clamped to
[0.2, 2.0]. -/
def P2Rtt.update_rtt (s : P2Rtt) (sample_rtt : ℚ) : P2Rtt :=
  let p : ℚ × ℚ :=
    if s.estimated_rtt = 1 then
      (sample_rtt, sample_rtt / 2)
    else
      let dev := (1 - 1 / 4) * s.dev_rtt + (1 / 4) * |sample_rtt - s.estimated_rtt|
      let est := (1 - 1 / 8) * s.estimated_rtt + (1 / 8) * sample_rtt
      (est, dev)
  let rto := max (p.1 + 4 * p.2) (1 / 5)
  ⟨p.1, p.2, min rto 2⟩

/-- Modelled from the spec (§4.2): "On first sample: `srtt = sample`,
`rttvar = sample/2`.  On subsequent samples:
`rttvar ← (1-β)·rttvar + β·|sample - srtt|`; `srtt ← (1-α)·srtt + α·sample`;
with `α = 1/8`, `β = 1/4`.  `rto ← clamp(srtt + 4·rttvar, RTO_MIN, RTO_MAX)`
where `RTO_MIN = 200 ms`".  Returns `(srtt, rttvar, rto)`; this definition
exists only to be compared against the source translations above. -/
def specRttUpdate (rtoMax : ℚ) (first : Bool) (srtt rttvar sample : ℚ) : ℚ × ℚ × ℚ :=
  let p : ℚ × ℚ :=
    if first then (sample, sample / 2)
    else
      let rttvar' := (1 - 1 / 4) * rttvar + (1 / 4) * |sample - srtt|
      let srtt' := (1 - 1 / 8) * srtt + (1 / 8) * sample
      (srtt', rttvar')
  (p.1, p.2, max (1 / 5) (min (p.1 + 4 * p.2) rtoMax))

theorem clamp_comm (l h x : ℚ) (hlh : l ≤ h) : min (max x l) h = max l (min x h) := by
  simp only [min_def, max_def]
  split_ifs <;> linarith

/-- RTT-estimator state of the `working_sourbah` part2 sender:
`estimated_rtt`, `dev_rtt`, `timeout_interval`, initialised to
0.5 / 0.25 / 1.0 in `send_file`. -/
@[ext]
structure WsRtt where
  estimated_rtt : ℚ
  dev_rtt : ℚ
  timeout_interval : ℚ
deriving DecidableEq

/-- Translation of the EWMA update in `working_sourbah/p2_server.py`
`receive_acks` (lines 158-162): no first-sample special case; the estimate
is updated before the deviation; timeout is `estimated_rtt + 4 * dev_rtt`
clamped to [MIN_TIMEOUT, MAX_TIMEOUT] = [0.2, 2.5]. -/
def WsRtt.update (r : WsRtt) (sample_rtt : ℚ) : WsRtt :=
  let est := (1 - 1 / 8) * r.estimated_rtt + (1 / 8) * sample_rtt
  let dev := (1 - 1 / 4) * r.dev_rtt + (1 / 4) * |sample_rtt - est|
  ⟨est, dev, max (1 / 5) (min (est + 4 * dev) (5 / 2))⟩

/-- Translation of the Karn guard in `working_sourbah/p2_server.py`
`receive_acks` (lines 154-162): on a new ACK, the RTT sample
`rec_time - original_send_time` is fed to the estimator only when the
acknowledged sequence is still in `unacked_packets` (`inWindow`) and its
recorded `retry_count` is zero. -/
def wsAckRttStep (r : WsRtt) (inWindow : Bool) (retryCount : ℕ)
    (recTime origSendTime : ℚ) : WsRtt :=
  if inWindow = true ∧ retryCount = 0 then r.update (recTime - origSendTime) else r

/-- Claim C4, counterexample: part1 `Server.py` `update_rtt` computes
`timeout_interval = estimated_rtt + 3·dev_rtt` (then clamps), not
`srtt + 4·rttvar` as the claim states.  From the non-first state
(srtt, rttvar) = (1, 1/10) with sample 1 the code yields rto = 49/40,
while the claimed formula yields 13/10, which lies inside
[RTO_MIN, 2] ⊆ [RTO_MIN, RTO_MAX] for every admissible RTO_MAX ∈ [2, 3],
so no clamp choice can reconcile the two. -/
theorem c4_rtt_formula_cex :
    (P1Rtt.update_rtt ⟨1, 1 / 10, 4 / 5⟩ 1).estimated_rtt = 1 ∧
    (P1Rtt.update_rtt ⟨1, 1 / 10, 4 / 5⟩ 1).dev_rtt = 3 / 40 ∧
    (P1Rtt.update_rtt ⟨1, 1 / 10, 4 / 5⟩ 1).timeout_interval = 49 / 40 ∧
    (1 / 5 : ℚ) ≤ 1 + 4 * (3 / 40) ∧ (1 + 4 * (3 / 40) : ℚ) ≤ 2 ∧
    (49 / 40 : ℚ) ≠ 1 + 4 * (3 / 40) := by
  refine ⟨?_, ?_, ?_, by norm_num, by norm_num, by norm_num⟩ <;>
    · simp only [P1Rtt.update_rtt]
      norm_num

/-- Claim C4 (amended): part2 `p2_server.py` `update_rtt` implements the
claimed estimator exactly, with RTO_MAX = 2.0 s and the first-sample test
realised as the sentinel comparison `estimated_rtt == 1.0`; part1
`Server.py` `update_rtt` instead updates `srtt` before `rttvar` and sets
`rto = clamp(srtt + 3·rttvar, 0.2, 2.5)`; in both, after every update
`RTO_MIN ≤ rto ≤ RTO_MAX` holds. -/
theorem c4_rtt_estimator_amended (s2 : P2Rtt) (s1 : P1Rtt) (x : ℚ) :
    (s2.estimated_rtt = 1 →
      ((s2.update_rtt x).estimated_rtt, (s2.update_rtt x).dev_rtt, (s2.update_rtt x).rto)
        = specRttUpdate 2 true s2.estimated_rtt s2.dev_rtt x) ∧
    (s2.estimated_rtt ≠ 1 →
      ((s2.update_rtt x).estimated_rtt, (s2.update_rtt x).dev_rtt, (s2.update_rtt x).rto)
        = specRttUpdate 2 false s2.estimated_rtt s2.dev_rtt x) ∧
    (1 / 5 ≤ (s2.update_rtt x).rto ∧ (s2.update_rtt x).rto ≤ 2) ∧
    (1 / 5 ≤ (s1.update_rtt x).timeout_interval ∧
      (s1.update_rtt x).timeout_interval ≤ 5 / 2) ∧
    (s1.update_rtt x).timeout_interval
      = max (1 / 5) (min ((s1.update_rtt x).estimated_rtt
          + 3 * (s1.update_rtt x).dev_rtt) (5 / 2)) := by
  refine ⟨fun h => ?_, fun h => ?_, ⟨?_, ?_⟩, ⟨?_, ?_⟩, ?_⟩
  · simp only [P2Rtt.update_rtt, specRttUpdate, if_pos h, if_pos rfl]
    exact congrArg _ (congrArg _ (clamp_comm (1 / 5) 2 _ (by norm_num)))
  · simp only [P2Rtt.update_rtt, specRttUpdate, if_neg h, Bool.false_eq_true, if_neg
      (fun hh => (Bool.false_ne_true hh))]
    exact congrArg _ (congrArg _ (clamp_comm (1 / 5) 2 _ (by norm_num)))
  · simp only [P2Rtt.update_rtt]
    exact le_min (le_max_right _ _) (by norm_num)
  · simp only [P2Rtt.update_rtt]
    exact min_le_right _ _
  · simp only [P1Rtt.update_rtt]
    exact le_max_left _ _
  · simp only [P1Rtt.update_rtt]
    exact max_le (by norm_num) (min_le_right _ _)
  · by_cases h : s1.estimated_rtt = 1 / 2 <;> simp [P1Rtt.update_rtt, h]

theorem c4_rtt_estimator_amended_witness :
    ((P2Rtt.update_rtt ⟨1, 0, 1⟩ 1).estimated_rtt, (P2Rtt.update_rtt ⟨1, 0, 1⟩ 1).dev_rtt,
      (P2Rtt.update_rtt ⟨1, 0, 1⟩ 1).rto) = specRttUpdate 2 true 1 0 1 ∧
    1 / 5 ≤ (P2Rtt.update_rtt ⟨1, 0, 1⟩ 1).rto :=
  ⟨(c4_rtt_estimator_amended ⟨1, 0, 1⟩ ⟨1 / 2, 1 / 4, 4 / 5⟩ 1).1 rfl,
   (c4_rtt_estimator_amended ⟨1, 0, 1⟩ ⟨1 / 2, 1 / 4, 4 / 5⟩ 1).2.2.1.1⟩

/-- Claim C5: Karn's rule in `working_sourbah/p2_server.py` `receive_acks` —
when the acknowledged segment's recorded retry count is nonzero, the whole
RTT-estimator state (`estimated_rtt`, `dev_rtt`, `timeout_interval`) is
left unchanged by that acknowledgment.  (In `p2_server.py` the same
property holds vacuously: `send_packet` stores retransmit count 0 for
every transmission, so no recorded count is ever positive.) -/
theorem c5_karn_rule (r : WsRtt) (inWindow : Bool) (retryCount : ℕ)
    (recTime origSendTime : ℚ) (h : 0 < retryCount) :
    wsAckRttStep r inWindow retryCount recTime origSendTime = r := by
  simp only [wsAckRttStep]
  rw [if_neg]
  rintro ⟨-, h0⟩
  omega

/-! ## Frame decoders -/

/-- Translation of `parse_packet` in part1 `Client.py` (lines 83-91):
frames shorter than 20 bytes yield `(None, None)`; otherwise the first
four bytes decode the sequence number and bytes 20+ are the payload. -/
def p1_parse_packet (packet : List ℕ) : Option ℕ × Option (List ℕ) :=
  if packet.length < 20 then (none, none)
  else
    (some (unpackU32 (packet.getD 0 0) (packet.getD 1 0) (packet.getD 2 0) (packet.getD 3 0)),
     some (packet.drop 20))

/-- Translation of `parse_packet` in part2 `p2_client.py` (lines 33-41),
identical in behaviour to the part1 decoder with `HEADER_SIZE = 20`. -/
def p2_parse_packet (packet : List ℕ) : Option ℕ × Option (List ℕ) :=
  if packet.length < HEADER_SIZE then (none, none)
  else
    (some (unpackU32 (packet.getD 0 0) (packet.getD 1 0) (packet.getD 2 0) (packet.getD 3 0)),
     some (packet.drop HEADER_SIZE))

/-- Translation of `parse_ack` in part2 `p2_server.py` (lines 247-264):
packets shorter than 4 bytes yield `(None, [])`, but any packet of at
least 4 bytes yields an acknowledgment number; the two `(u32 start,
u32 end)` SACK blocks are read only when the packet has at least 20
bytes, and a block is kept when both halves are nonzero. -/
def parse_ack (packet : List ℕ) : Option ℕ × List (ℕ × ℕ) :=
  if packet.length < 4 then (none, [])
  else
    let ack := unpackU32 (packet.getD 0 0) (packet.getD 1 0) (packet.getD 2 0) (packet.getD 3 0)
    let blocks :=
      if 20 ≤ packet.length then
        let s1 := unpackU32 (packet.getD 4 0) (packet.getD 5 0)
          (packet.getD 6 0) (packet.getD 7 0)
        let e1 := unpackU32 (packet.getD 8 0) (packet.getD 9 0)
          (packet.getD 10 0) (packet.getD 11 0)
        let s2 := unpackU32 (packet.getD 12 0) (packet.getD 13 0)
          (packet.getD 14 0) (packet.getD 15 0)
        let e2 := unpackU32 (packet.getD 16 0) (packet.getD 17 0)
          (packet.getD 18 0) (packet.getD 19 0)
        (if s1 ≠ 0 ∧ e1 ≠ 0 then [(s1, e1)] else [])
          ++ (if s2 ≠ 0 ∧ e2 ≠ 0 then [(s2, e2)] else [])
      else []
    (some ack, blocks)

/-- Translation of `parse_sack` in part1 `Server.py` (lines 49-68):
packets shorter than 20 bytes are rejected; otherwise the first four
bytes decode `next_expected` and bytes 4-19 hold four `(u16 start,
u16 length)` pairs read at offsets 4, 8, 12, 16, each kept when not
all-zero. -/
def parse_sack (packet : List ℕ) : Option ℕ × List (ℕ × ℕ) :=
  if packet.length < 20 then (none, [])
  else
    match packet with
    | b0 :: b1 :: b2 :: b3 ::
      p0 :: p1 :: p2 :: p3 :: p4 :: p5 :: p6 :: p7 ::
      p8 :: p9 :: p10 :: p11 :: p12 :: p13 :: p14 :: p15 :: _ =>
        (some (unpackU32 b0 b1 b2 b3),
         [(unpackU16 p0 p1, unpackU16 p2 p3), (unpackU16 p4 p5, unpackU16 p6 p7),
          (unpackU16 p8 p9, unpackU16 p10 p11),
          (unpackU16 p12 p13, unpackU16 p14 p15)].filter
           (fun r => (r.1 != 0) || (r.2 != 0)))
    | _ => (none, [])

/-! ## SACK encoder (part1 `Client.py` `make_sack_packet`) -/

/-- First-missing scan in `make_sack_packet` (lines 31-37): walk the
sorted received sequence numbers, advancing `next_expected` past each
consecutive one, stopping at the first gap. -/
def nextExpectedLoop : List ℕ → ℕ → ℕ
  | [], ne => ne
  | p :: rest, ne => if p = ne then nextExpectedLoop rest (ne + 1) else ne

/-- Contiguous-run accumulation in `make_sack_packet` (lines 39-64):
packets below `next_expected` are skipped; a packet extending the current
`(start, length)` run lengthens it; a gap flushes the run into the
accumulator, and the loop breaks once four runs are flushed (dropping the
run just started); at the end an unflushed run is appended when fewer
than four runs were flushed. -/
def buildSackRanges : List ℕ → ℕ → Option (ℕ × ℕ) → List (ℕ × ℕ) → List (ℕ × ℕ)
  | [], _, none, acc => acc
  | [], _, some r, acc => if acc.length < 4 then acc ++ [r] else acc
  | p :: rest, ne, none, acc =>
    if p < ne then buildSackRanges rest ne none acc
    else buildSackRanges rest ne (some (p, 1)) acc
  | p :: rest, ne, some (s, l), acc =>
    if p < ne then buildSackRanges rest ne (some (s, l)) acc
    else if p = s + l then buildSackRanges rest ne (some (s, l + 1)) acc
    else if 3 ≤ acc.length then acc ++ [(s, l)]
    else buildSackRanges rest ne (some (p, 1)) (acc ++ [(s, l)])

/-- The `next_expected` value `make_sack_packet` computes from the
receiver's set of received sequence numbers. -/
def nextExpectedOf (received : Finset ℕ) : ℕ :=
  nextExpectedLoop (received.sort (· ≤ ·)) 0

/-- The SACK ranges `make_sack_packet` computes: contiguous runs of
received sequence numbers above `next_expected`, at most four. -/
def sackRangesOf (received : Finset ℕ) : List (ℕ × ℕ) :=
  buildSackRanges (received.sort (· ≤ ·)) (nextExpectedOf received) none []

/-- Translation of `make_sack_packet` in part1 `Client.py` (lines 19-77):
an empty received set encodes as `next_expected = 0` with 16 zero bytes;
otherwise the 4-byte big-endian `next_expected` is followed by up to four
ranges serialised as `(start & 0xFFFF, length & 0xFFFF)` pairs of
big-endian u16s, then zero padding up to 20 bytes. -/
def make_sack_packet (received : Finset ℕ) : List ℕ :=
  if received = ∅ then packU32 0 ++ List.replicate 16 0
  else
    packU32 (nextExpectedOf received)
      ++ ((sackRangesOf received).take 4).flatMap
          (fun r => packU16 (r.1 % 2 ^ 16) ++ packU16 (r.2 % 2 ^ 16))
      ++ List.replicate (16 - 4 * (sackRangesOf received).length) 0

theorem buildSackRanges_length (L : List ℕ) :
    ∀ (ne : ℕ) (cur : Option (ℕ × ℕ)) (acc : List (ℕ × ℕ)), acc.length ≤ 3 →
      (buildSackRanges L ne cur acc).length ≤ 4 := by
  induction L with
  | nil =>
    intro ne cur acc h
    cases cur with
    | none => simpa [buildSackRanges] using le_trans h (by norm_num)
    | some r =>
      simp only [buildSackRanges]
      split
      · simp only [List.length_append, List.length_cons, List.length_nil]
        omega
      · exact le_trans h (by norm_num)
  | cons p rest ih =>
    intro ne cur acc h
    cases cur with
    | none =>
      simp only [buildSackRanges]
      split
      · exact ih ne none acc h
      · exact ih ne (some (p, 1)) acc h
    | some r =>
      obtain ⟨s, l⟩ := r
      simp only [buildSackRanges]
      split
      · exact ih ne (some (s, l)) acc h
      · split
        · exact ih ne (some (s, l + 1)) acc h
        · split
          · simp only [List.length_append, List.length_cons, List.length_nil]
            omega
          · refine ih ne (some (p, 1)) (acc ++ [(s, l)]) ?_
            rename_i hlen3
            simp only [List.length_append, List.length_cons, List.length_nil]
            omega

theorem buildSackRanges_wf (L : List ℕ) :
    ∀ (ne : ℕ) (cur : Option (ℕ × ℕ)) (acc : List (ℕ × ℕ)),
      (∀ p ∈ L, p ≠ ne) →
      (∀ r ∈ acc, 1 ≤ r.2 ∧ ne < r.1) →
      (∀ s l, cur = some (s, l) → 1 ≤ l ∧ ne < s) →
      ∀ r ∈ buildSackRanges L ne cur acc, 1 ≤ r.2 ∧ ne < r.1 := by
  induction L with
  | nil =>
    intro ne cur acc _ hacc hcur
    cases cur with
    | none => simpa [buildSackRanges] using hacc
    | some r =>
      obtain ⟨s, l⟩ := r
      simp only [buildSackRanges]
      split
      · intro q hq
        rcases List.mem_append.mp hq with hq | hq
        · exact hacc q hq
        · rcases List.mem_singleton.mp hq with rfl
          exact hcur s l rfl
      · exact hacc
  | cons p rest ih =>
    intro ne cur acc hL hacc hcur
    have hLrest : ∀ q ∈ rest, q ≠ ne := fun q hq => hL q (List.mem_cons_of_mem p hq)
    have hpne : p ≠ ne := hL p (List.mem_cons_self p rest)
    cases cur with
    | none =>
      simp only [buildSackRanges]
      split
      · exact ih ne none acc hLrest hacc (by rintro s l ⟨⟩)
      · rename_i hge
        have hplt : ne < p := lt_of_le_of_ne (Nat.not_lt.mp hge) (Ne.symm hpne)
        refine ih ne (some (p, 1)) acc hLrest hacc ?_
        rintro s l h
        injection h with h
        injection h with h1 h2
        subst h1; subst h2
        exact ⟨le_refl 1, hplt⟩
    | some r =>
      obtain ⟨s, l⟩ := r
      have hsl : 1 ≤ l ∧ ne < s := hcur s l rfl
      simp only [buildSackRanges]
      split
      · refine ih ne (some (s, l)) acc hLrest hacc ?_
        rintro s' l' h
        injection h with h
        injection h with h1 h2
        subst h1; subst h2
        exact hsl
      · rename_i hge
        have hplt : ne < p := lt_of_le_of_ne (Nat.not_lt.mp hge) (Ne.symm hpne)
        split
        · refine ih ne (some (s, l + 1)) acc hLrest hacc ?_
          rintro s' l' h
          injection h with h
          injection h with h1 h2
          subst h1; subst h2
          exact ⟨Nat.le_succ_of_le hsl.1, hsl.2⟩
        · split
          · intro q hq
            rcases List.mem_append.mp hq with hq | hq
            · exact hacc q hq
            · rcases List.mem_singleton.mp hq with rfl
              exact hsl
          · refine ih ne (some (p, 1)) (acc ++ [(s, l)]) hLrest ?_ ?_
            · intro q hq
              rcases List.mem_append.mp hq with hq | hq
              · exact hacc q hq
              · rcases List.mem_singleton.mp hq with rfl
                exact hsl
            · rintro s' l' h
              injection h with h
              injection h with h1 h2
              subst h1; subst h2
              exact ⟨le_refl 1, hplt⟩

theorem nextExpectedLoop_not_mem (L : List ℕ) :
    ∀ ne : ℕ, L.Sorted (· < ·) → (∀ p ∈ L, ne ≤ p) →
      nextExpectedLoop L ne ∉ L ∧ ne ≤ nextExpectedLoop L ne := by
  induction L with
  | nil => intro ne _ _; simp [nextExpectedLoop]
  | cons p rest ih =>
    intro ne hs hlb
    obtain ⟨hp, hrest⟩ := List.sorted_cons.mp hs
    by_cases hpe : p = ne
    · have hred : nextExpectedLoop (p :: rest) ne = nextExpectedLoop rest (ne + 1) := by
        simp [nextExpectedLoop, hpe]
      have hlb' : ∀ q ∈ rest, ne + 1 ≤ q := by
        intro q hq
        have := hp q hq
        omega
      obtain ⟨hnm, hle⟩ := ih (ne + 1) hrest hlb'
      rw [hred]
      refine ⟨?_, by omega⟩
      simp only [List.mem_cons]
      rintro (h | h)
      · omega
      · exact hnm h
    · have hred : nextExpectedLoop (p :: rest) ne = ne := by
        simp [nextExpectedLoop, hpe]
      rw [hred]
      refine ⟨?_, le_refl ne⟩
      simp only [List.mem_cons]
      rintro (h | h)
      · exact hpe h.symm
      · have h1 : p < ne := hp ne h
        have h2 : ne ≤ p := hlb p (List.mem_cons_self p rest)
        omega

theorem unpackU16_bytes (n : ℕ) (h : n < 2 ^ 16) :
    unpackU16 (n % 2 ^ 16 / 256 % 256) (n % 2 ^ 16 % 256) = n := by
  simp only [unpackU16]
  omega

theorem parse_sack_cons (b0 b1 b2 b3 p0 p1 p2 p3 p4 p5 p6 p7 p8 p9 p10 p11 p12 p13 p14 p15 : ℕ)
    (rest : List ℕ) :
    parse_sack (b0 :: b1 :: b2 :: b3 :: p0 :: p1 :: p2 :: p3 :: p4 :: p5 :: p6 :: p7 ::
        p8 :: p9 :: p10 :: p11 :: p12 :: p13 :: p14 :: p15 :: rest)
      = (some (unpackU32 b0 b1 b2 b3),
         [(unpackU16 p0 p1, unpackU16 p2 p3), (unpackU16 p4 p5, unpackU16 p6 p7),
          (unpackU16 p8 p9, unpackU16 p10 p11), (unpackU16 p12 p13, unpackU16 p14 p15)].filter
           (fun r => (r.1 != 0) || (r.2 != 0))) := by
  rw [parse_sack, if_neg (by simp only [List.length_cons]; omega)]

theorem parse_sack_encode (ne : ℕ) (R : List (ℕ × ℕ)) (hne32 : ne < 2 ^ 32)
    (hlen : R.length ≤ 4)
    (hpos : ∀ r ∈ R, r.1 ≠ 0)
    (hfit : ∀ r ∈ R, r.1 < 2 ^ 16 ∧ r.2 < 2 ^ 16) :
    parse_sack (packU32 ne
        ++ (R.take 4).flatMap (fun r => packU16 (r.1 % 2 ^ 16) ++ packU16 (r.2 % 2 ^ 16))
        ++ List.replicate (16 - 4 * R.length) 0)
      = (some ne, R) := by
  have hu32 := unpackU32_packU32 ne hne32
  have hrep16 : List.replicate 16 (0 : ℕ) = [0, 0, 0, 0, 0, 0, 0, 0, 0, 0, 0, 0, 0, 0, 0, 0] :=
    rfl
  have hrep12 : List.replicate 12 (0 : ℕ) = [0, 0, 0, 0, 0, 0, 0, 0, 0, 0, 0, 0] := rfl
  have hrep8 : List.replicate 8 (0 : ℕ) = [0, 0, 0, 0, 0, 0, 0, 0] := rfl
  have hrep4 : List.replicate 4 (0 : ℕ) = [0, 0, 0, 0] := rfl
  have hrep0 : List.replicate 0 (0 : ℕ) = [] := rfl
  rcases R with _ | ⟨⟨a1, b1⟩, _ | ⟨⟨a2, b2⟩, _ | ⟨⟨a3, b3⟩, _ | ⟨⟨a4, b4⟩, _ | ⟨r5, R5⟩⟩⟩⟩⟩
  · simp only [List.take_nil, List.flatMap_nil, List.length_nil, Nat.mul_zero, Nat.sub_zero,
      packU32, List.nil_append, List.cons_append, hrep16]
    rw [parse_sack_cons, hu32]
    simp [unpackU16]
  · have h1 := hfit (a1, b1) (by simp)
    have h1p : (a1 != 0) = true := bne_iff_ne.mpr (hpos (a1, b1) (by simp))
    have htake : List.take 4 ([(a1, b1)] : List (ℕ × ℕ)) = [(a1, b1)] := rfl
    simp only [htake, List.flatMap_cons, List.flatMap_nil,
      List.length_cons, List.length_nil, packU32, packU16, List.nil_append, List.cons_append,
      List.append_nil, show 16 - 4 * (0 + 1) = 12 by norm_num, hrep12]
    rw [parse_sack_cons, hu32, unpackU16_bytes a1 h1.1, unpackU16_bytes b1 h1.2]
    simp [unpackU16, List.filter, h1p]
  · have h1 := hfit (a1, b1) (by simp)
    have h2 := hfit (a2, b2) (by simp)
    have h1p : (a1 != 0) = true := bne_iff_ne.mpr (hpos (a1, b1) (by simp))
    have h2p : (a2 != 0) = true := bne_iff_ne.mpr (hpos (a2, b2) (by simp))
    have htake : List.take 4 ([(a1, b1), (a2, b2)] : List (ℕ × ℕ)) = [(a1, b1), (a2, b2)] := rfl
    simp only [htake, List.flatMap_cons, List.flatMap_nil,
      List.length_cons, List.length_nil, packU32, packU16, List.nil_append, List.cons_append,
      List.append_nil, show 16 - 4 * (0 + 1 + 1) = 8 by norm_num, hrep8]
    rw [parse_sack_cons, hu32, unpackU16_bytes a1 h1.1, unpackU16_bytes b1 h1.2,
      unpackU16_bytes a2 h2.1, unpackU16_bytes b2 h2.2]
    simp [unpackU16, List.filter, h1p, h2p]
  · have h1 := hfit (a1, b1) (by simp)
    have h2 := hfit (a2, b2) (by simp)
    have h3 := hfit (a3, b3) (by simp)
    have h1p : (a1 != 0) = true := bne_iff_ne.mpr (hpos (a1, b1) (by simp))
    have h2p : (a2 != 0) = true := bne_iff_ne.mpr (hpos (a2, b2) (by simp))
    have h3p : (a3 != 0) = true := bne_iff_ne.mpr (hpos (a3, b3) (by simp))
    have htake : List.take 4 ([(a1, b1), (a2, b2), (a3, b3)] : List (ℕ × ℕ)) = [(a1, b1), (a2, b2), (a3, b3)] := rfl
    simp only [htake, List.flatMap_cons, List.flatMap_nil,
      List.length_cons, List.length_nil, packU32, packU16, List.nil_append, List.cons_append,
      List.append_nil, show 16 - 4 * (0 + 1 + 1 + 1) = 4 by norm_num, hrep4]
    rw [parse_sack_cons, hu32, unpackU16_bytes a1 h1.1, unpackU16_bytes b1 h1.2,
      unpackU16_bytes a2 h2.1, unpackU16_bytes b2 h2.2,
      unpackU16_bytes a3 h3.1, unpackU16_bytes b3 h3.2]
    simp [unpackU16, List.filter, h1p, h2p, h3p]
  · have h1 := hfit (a1, b1) (by simp)
    have h2 := hfit (a2, b2) (by simp)
    have h3 := hfit (a3, b3) (by simp)
    have h4 := hfit (a4, b4) (by simp)
    have h1p : (a1 != 0) = true := bne_iff_ne.mpr (hpos (a1, b1) (by simp))
    have h2p : (a2 != 0) = true := bne_iff_ne.mpr (hpos (a2, b2) (by simp))
    have h3p : (a3 != 0) = true := bne_iff_ne.mpr (hpos (a3, b3) (by simp))
    have h4p : (a4 != 0) = true := bne_iff_ne.mpr (hpos (a4, b4) (by simp))
    have htake : List.take 4 ([(a1, b1), (a2, b2), (a3, b3), (a4, b4)] : List (ℕ × ℕ)) = [(a1, b1), (a2, b2), (a3, b3), (a4, b4)] := rfl
    simp only [htake, List.flatMap_cons, List.flatMap_nil,
      List.length_cons, List.length_nil, packU32, packU16, List.nil_append, List.cons_append,
      List.append_nil, show 16 - 4 * (0 + 1 + 1 + 1 + 1) = 0 by norm_num, hrep0]
    rw [parse_sack_cons, hu32, unpackU16_bytes a1 h1.1, unpackU16_bytes b1 h1.2,
      unpackU16_bytes a2 h2.1, unpackU16_bytes b2 h2.2,
      unpackU16_bytes a3 h3.1, unpackU16_bytes b3 h3.2,
      unpackU16_bytes a4 h4.1, unpackU16_bytes b4 h4.2]
    simp [List.filter, h1p, h2p, h3p, h4p]
  · exfalso
    simp only [List.length_cons] at hlen
    omega

/-- Claim C6, counterexample: with received set {65536} the encoder emits
the SACK range (65536, 1) but serialises it as
`(65536 & 0xFFFF, 1 & 0xFFFF) = (0, 1)`, so encode-then-decode returns
the range (0, 1) ≠ (65536, 1): the roundtrip is not the identity once a
range start (or length) overflows 16 bits. -/
theorem c6_sack_roundtrip_cex :
    parse_sack (make_sack_packet {65536}) = (some 0, [(0, 1)]) ∧
    nextExpectedOf {65536} = 0 ∧
    sackRangesOf {65536} = [(65536, 1)] ∧
    ((0, 1) : ℕ × ℕ) ≠ (65536, 1) := by
  have hsort : ({65536} : Finset ℕ).sort (· ≤ ·) = [65536] := Finset.sort_singleton (· ≤ ·) 65536
  have h1 : nextExpectedOf {65536} = 0 := by
    rw [nextExpectedOf, hsort]
    decide
  have h2 : sackRangesOf {65536} = [(65536, 1)] := by
    rw [sackRangesOf, hsort, h1]
    decide
  refine ⟨?_, h1, h2, by decide⟩
  rw [make_sack_packet, if_neg (by decide), h1, h2]
  decide

/-- Claim C6 (amended): SACK encode-then-decode is the identity on the
acknowledgment content — decoded `next_expected` equals the receiver's
next expected sequence and the decoded ranges equal the (up to four)
contiguous runs the encoder emitted — provided `next_expected` fits in 32
bits and every emitted range's start and length fit in 16 bits; ranges
with larger values are truncated modulo 2^16 by the `& 0xFFFF` packing
(see the counterexample). -/
theorem c6_sack_roundtrip_amended (S : Finset ℕ)
    (hne32 : nextExpectedOf S < 2 ^ 32)
    (hfit : ∀ r ∈ sackRangesOf S, r.1 < 2 ^ 16 ∧ r.2 < 2 ^ 16) :
    parse_sack (make_sack_packet S) = (some (nextExpectedOf S), sackRangesOf S) := by
  by_cases hS : S = ∅
  · subst hS
    have h1 : nextExpectedOf (∅ : Finset ℕ) = 0 := by
      rw [nextExpectedOf, Finset.sort_empty]
      decide
    have h2 : sackRangesOf (∅ : Finset ℕ) = [] := by
      rw [sackRangesOf, Finset.sort_empty]
      decide
    rw [make_sack_packet, if_pos rfl, h1, h2]
    decide
  · have hsorted := Finset.sort_sorted_lt S
    have hnm := nextExpectedLoop_not_mem (S.sort (· ≤ ·)) 0 hsorted (fun p _ => Nat.zero_le p)
    have hLne : ∀ p ∈ S.sort (· ≤ ·), p ≠ nextExpectedOf S := by
      intro p hp h
      rw [h] at hp
      exact hnm.1 hp
    have hwf := buildSackRanges_wf (S.sort (· ≤ ·)) (nextExpectedOf S) none [] hLne
      (by simp) (by rintro s l ⟨⟩)
    have hlen := buildSackRanges_length (S.sort (· ≤ ·)) (nextExpectedOf S) none [] (by simp)
    rw [make_sack_packet, if_neg hS]
    refine parse_sack_encode (nextExpectedOf S) (sackRangesOf S) hne32 hlen ?_ hfit
    intro r hr
    have := (hwf r hr).2
    omega

theorem c6_sack_roundtrip_amended_witness :
    parse_sack (make_sack_packet {2}) = (some (nextExpectedOf {2}), sackRangesOf {2}) :=
  c6_sack_roundtrip_amended {2}
    (by rw [nextExpectedOf, Finset.sort_singleton (· ≤ ·) 2]; decide)
    (by rw [sackRangesOf, nextExpectedOf, Finset.sort_singleton (· ≤ ·) 2]; decide)

/-- Claim C7, counterexample: `parse_ack` in `p2_server.py` interprets a
4-byte frame as an acknowledgment instead of rejecting it — the frame
`[0, 0, 0, 5]` (length 4 < 20) decodes to cumulative ACK 5. -/
theorem c7_short_frame_cex :
    parse_ack [0, 0, 0, 5] = (some 5, []) ∧
    ([0, 0, 0, 5] : List ℕ).length < 20 ∧
    (parse_ack [0, 0, 0, 5]).1 ≠ none := by
  refine ⟨?_, by norm_num, ?_⟩ <;> simp [parse_ack, unpackU32]

/-- Claim C7 (amended): the data-frame decoders (`parse_packet` in part1
`Client.py` and part2 `p2_client.py`) and part1's `parse_sack` reject
every frame shorter than 20 bytes, and `parse_ack` in `p2_server.py`
rejects frames shorter than 4 bytes; but `parse_ack` accepts any frame of
4 or more bytes as an acknowledgment (with no SACK blocks below 20
bytes), so sub-20-byte frames are not uniformly rejected. -/
theorem c7_short_frame_rejected_amended (packet : List ℕ) (h : packet.length < 20) :
    p1_parse_packet packet = (none, none) ∧
    p2_parse_packet packet = (none, none) ∧
    parse_sack packet = (none, []) ∧
    (packet.length < 4 → parse_ack packet = (none, [])) ∧
    (4 ≤ packet.length → ∃ n, (parse_ack packet).1 = some n ∧ (parse_ack packet).2 = []) := by
  refine ⟨?_, ?_, ?_, fun h4 => ?_, fun h4 => ?_⟩
  · simp [p1_parse_packet, h]
  · simp [p2_parse_packet, HEADER_SIZE, h]
  · simp [parse_sack, h]
  · simp [parse_ack, h4]
  · exact ⟨unpackU32 (packet.getD 0 0) (packet.getD 1 0) (packet.getD 2 0) (packet.getD 3 0),
      by simp [parse_ack, Nat.not_lt.mpr h4, Nat.not_le.mpr h],
      by simp [parse_ack, Nat.not_lt.mpr h4, Nat.not_le.mpr h]⟩

theorem c7_short_frame_rejected_amended_witness :
    p1_parse_packet [1, 2, 3] = (none, none) ∧ ([1, 2, 3] : List ℕ).length < 20 :=
  ⟨(c7_short_frame_rejected_amended [1, 2, 3] (by norm_num)).1, by norm_num⟩

/-! ## Receiver sink writer (part1 `Client.py` `write_file`) -/

/-- Translation of `write_file` in part1 `Client.py` (lines 148-168):
nothing is written when no packet was received; otherwise sequence
numbers 0 .. max(received_packets) are scanned in increasing order,
payloads present in `packet_data_map` are appended to the sink and their
bytes counted, and missing sequence numbers are skipped with no
placeholder bytes.  Returns (sink contents, bytes_written). -/
def write_file (received : Finset ℕ) (m : ℕ → Option (List ℕ)) : List ℕ × ℕ :=
  if h : received.Nonempty then
    (List.range (received.max' h + 1)).foldl
      (fun acc seq =>
        match m seq with
        | some d => (acc.1 ++ d, acc.2 + d.length)
        | none => acc)
      ([], 0)
  else ([], 0)

theorem write_file_foldl (m : ℕ → Option (List ℕ)) (L : List ℕ) :
    ∀ acc : List ℕ × ℕ,
      L.foldl (fun acc seq =>
          match m seq with
          | some d => (acc.1 ++ d, acc.2 + d.length)
          | none => acc) acc
        = (acc.1 ++ L.flatMap (fun s => (m s).getD []),
           acc.2 + (L.flatMap (fun s => (m s).getD [])).length) := by
  induction L with
  | nil => intro acc; simp
  | cons s L ih =>
    intro acc
    rw [List.foldl_cons]
    cases hm : m s with
    | none =>
      rw [ih]
      simp [hm]
    | some d =>
      rw [ih]
      simp [hm, List.append_assoc, Nat.add_assoc]

theorem flatMap_filter_eq (f : ℕ → List ℕ) (p : ℕ → Bool) (L : List ℕ)
    (h : ∀ s ∈ L, p s = false → f s = []) :
    L.flatMap f = (L.filter p).flatMap f := by
  induction L with
  | nil => simp
  | cons a L ih =>
    have hL : ∀ s ∈ L, p s = false → f s = [] :=
      fun s hs => h s (List.mem_cons_of_mem a hs)
    simp only [List.flatMap_cons, List.filter_cons]
    cases hp : p a with
    | true => simp [List.flatMap_cons, ih hL]
    | false => simp [h a (List.mem_cons_self a L) hp, ih hL]

theorem filter_range_eq_sort (S : Finset ℕ) (n : ℕ) (hn : ∀ s ∈ S, s < n) :
    (List.range n).filter (fun s => decide (s ∈ S)) = S.sort (· ≤ ·) := by
  have hperm : List.Perm ((List.range n).filter (fun s => decide (s ∈ S))) (S.sort (· ≤ ·)) := by
    refine (List.perm_ext_iff_of_nodup ((List.nodup_range n).filter _)
      (Finset.sort_nodup (· ≤ ·) S)).mpr ?_
    intro a
    simp only [List.mem_filter, List.mem_range, Finset.mem_sort, decide_eq_true_eq]
    exact ⟨fun h => h.2, fun h => ⟨hn a h, h⟩⟩
  exact List.eq_of_perm_of_sorted hperm ((List.sorted_le_range n).filter _)
    (Finset.sort_sorted (· ≤ ·) S)

/-- Claim C10: the part1 receiver's `write_file` produces exactly the
concatenation, in strictly increasing sequence order and each payload
once, of the payloads of the received sequence numbers (all of which lie
in 0 .. max(received_packets)); gaps contribute no bytes, and the
returned count is the total number of bytes written.  The hypothesis
records that `received_packets` and `packet_data_map` are kept in sync,
as `process_packet` guarantees. -/
theorem c10_write_file_order (received : Finset ℕ) (m : ℕ → Option (List ℕ))
    (hsync : ∀ s, s ∈ received ↔ (m s).isSome) :
    (write_file received m).1
        = (received.sort (· ≤ ·)).flatMap (fun s => (m s).getD []) ∧
    (write_file received m).2 = (write_file received m).1.length := by
  by_cases h : received.Nonempty
  · rw [write_file, dif_pos h, write_file_foldl]
    simp only [List.nil_append, Nat.zero_add]
    have hzero : ∀ s ∈ List.range (received.max' h + 1),
        (fun s => decide (s ∈ received)) s = false → (m s).getD [] = [] := by
      intro s _ hp
      have hs : s ∉ received := by simpa using hp
      have hmn : m s = none := by
        cases hm : m s with
        | none => rfl
        | some d => exact absurd ((hsync s).mpr (by simp [hm])) hs
      simp [hmn]
    have hlt : ∀ s ∈ received, s < received.max' h + 1 := fun s hs =>
      Nat.lt_succ_of_le (Finset.le_max' received s hs)
    refine ⟨?_, ?_⟩
    · rw [flatMap_filter_eq _ (fun s => decide (s ∈ received)) _ hzero,
        filter_range_eq_sort received _ hlt]
    · trivial
  · rw [write_file, dif_neg h]
    have he : received = ∅ := Finset.not_nonempty_iff_eq_empty.mp h
    simp [he]

theorem c10_write_file_order_witness :
    (write_file {1} (fun s => if s = 1 then some [7] else none)).1 = [7] ∧
    (write_file {1} (fun s => if s = 1 then some [7] else none)).2 = 1 := by
  have h := c10_write_file_order {1} (fun s => if s = 1 then some [7] else none)
    (by intro s; by_cases hs : s = 1 <;> simp [hs])
  refine ⟨?_, ?_⟩
  · rw [h.1, Finset.sort_singleton (· ≤ ·) 1]
    rfl
  · rw [h.2, h.1, Finset.sort_singleton (· ≤ ·) 1]
    rfl

/-! ## EOF handshake -/

/-- Loop of `send_eof` in part1 `Server.py` (lines 273-291), with fuel =
remaining attempts out of `max_attempts = 10`.  `acked k` is the value of
the `eof_acked` flag read at the top of iteration `k` (the flag is set
asynchronously by `receive_sacks`).  Returns (number of EOF-frame
transmissions, the boolean `send_eof` returns). -/
def sendEofGo (acked : ℕ → Bool) : ℕ → ℕ → ℕ × Bool
  | 0, attempt => (0, acked attempt)
  | fuel + 1, attempt =>
    if acked attempt then (0, true)
    else ((sendEofGo acked fuel (attempt + 1)).1 + 1, (sendEofGo acked fuel (attempt + 1)).2)

/-- `send_eof` of part1 `Server.py`: at most 10 attempts, one EOF
transmission and one 200 ms sleep per iteration while `eof_acked` is
still false; returns True exactly when the flag was observed. -/
def send_eof (acked : ℕ → Bool) : ℕ × Bool := sendEofGo acked 10 0

/-- Sleep between part1 EOF retransmissions: `time.sleep(0.2)`. -/
def P1_EOF_INTERVAL : ℚ := 1 / 5

/-- EOF emission in part2 `p2_server.py` `send_file` (lines 402-406): the
EOF frame is sent unconditionally 5 times (`for _ in range(5)`), sleeping
0.1 s after each send.  The loop never reads an acknowledgment, so the
transmission count does not depend on the EOF-ACK observation sequence
(passed here only for comparison with part1's `send_eof`). -/
def p2SendEofCount (_acked : ℕ → Bool) : ℕ :=
  (List.range 5).foldl (fun n _ => n + 1) 0

/-- Sleep between part2 EOF transmissions: `time.sleep(0.1)`. -/
def P2_EOF_INTERVAL : ℚ := 1 / 10

theorem sendEofGo_le (acked : ℕ → Bool) :
    ∀ fuel attempt, (sendEofGo acked fuel attempt).1 ≤ fuel := by
  intro fuel
  induction fuel with
  | zero => intro a; simp [sendEofGo]
  | succ f ih =>
    intro a
    simp only [sendEofGo]
    split
    · simp
    · simpa using Nat.succ_le_succ (ih (a + 1))

theorem sendEofGo_stop (acked : ℕ → Bool) :
    ∀ fuel attempt j, acked (attempt + j) = true → (sendEofGo acked fuel attempt).1 ≤ j := by
  intro fuel
  induction fuel with
  | zero => intro a j _; simp [sendEofGo]
  | succ f ih =>
    intro a j h
    simp only [sendEofGo]
    split
    · simp
    · rename_i hna
      cases j with
      | zero =>
        rw [Nat.add_zero] at h
        exact absurd h (by simpa using hna)
      | succ j' =>
        have hstep : acked (a + 1 + j') = true := by
          have : a + 1 + j' = a + (j' + 1) := by omega
          rw [this]
          exact h
        simpa using Nat.succ_le_succ (ih (a + 1) j' hstep)

theorem sendEofGo_never (acked : ℕ → Bool) (hf : ∀ j, acked j = false) :
    ∀ fuel attempt, sendEofGo acked fuel attempt = (fuel, false) := by
  intro fuel
  induction fuel with
  | zero => intro a; simp [sendEofGo, hf a]
  | succ f ih =>
    intro a
    simp only [sendEofGo, hf a, Bool.false_eq_true, if_false, ih (a + 1)]

/-- Claim C8, counterexample: in `p2_server.py` the EOF frame is sent
exactly 5 times even when the EOF-ACK has been observed from the very
start (the loop `for _ in range(5)` never reads an acknowledgment), and
the retransmission interval is 0.1 s, not 200 ms; so that sender neither
retransmits "up to 10 times" under loss nor stops when the EOF-ACK
arrives. -/
theorem c8_send_eof_cex :
    p2SendEofCount (fun _ => true) = 5 ∧
    ¬(p2SendEofCount (fun _ => true) ≤ 1) ∧
    P2_EOF_INTERVAL ≠ P1_EOF_INTERVAL := by
  refine ⟨rfl, by decide, by norm_num [P2_EOF_INTERVAL, P1_EOF_INTERVAL]⟩

/-- Claim C8 (amended): part1's `send_eof` transmits the EOF frame at most
10 times with a 200 ms sleep per attempt, stops retransmitting as soon as
the EOF-ACK flag is observed (at most `j` transmissions when the flag is
up by iteration `j`), and transmits exactly 10 times reporting failure
when the flag never rises; part2's `p2_server.py` instead emits EOF
exactly 5 times at 100 ms intervals without waiting for any EOF-ACK (see
the counterexample). -/
theorem c8_send_eof_amended (acked : ℕ → Bool) :
    (send_eof acked).1 ≤ 10 ∧
    (∀ j, acked j = true → (send_eof acked).1 ≤ j) ∧
    ((∀ j, acked j = false) → send_eof acked = (10, false)) ∧
    P1_EOF_INTERVAL = 1 / 5 :=
  ⟨sendEofGo_le acked 10 0,
   fun j hj => sendEofGo_stop acked 10 0 j (by simpa using hj),
   fun hf => sendEofGo_never acked hf 10 0,
   rfl⟩

theorem c8_send_eof_amended_witness :
    (send_eof (fun j => decide (2 ≤ j))).1 ≤ 2 ∧ send_eof (fun _ => false) = (10, false) :=
  ⟨(c8_send_eof_amended (fun j => decide (2 ≤ j))).2.1 2 (by decide),
   (c8_send_eof_amended (fun _ => false)).2.2.1 (fun _ => rfl)⟩

/-! ## Part1 sender ACK ingestion (`Server.py` `receive_sacks`) -/

/-- Cumulative-ACK ingestion in `receive_sacks` (lines 243-247): every
sequence in [old, ne) below `total_packets` and not yet acknowledged is
added; returns (updated acked set, newly acknowledged set). -/
def addCumAcks (total old ne : ℕ) (acked : Finset ℕ) : Finset ℕ × Finset ℕ :=
  (List.range' old (ne - old)).foldl
    (fun st seq =>
      if seq < total ∧ seq ∉ st.1 then (insert seq st.1, insert seq st.2) else st)
    (acked, ∅)

/-- Translation of `update_acked_from_sack_ranges` (lines 82-91): each
`(start, length)` range marks [start, min(start+length, total)) as
acknowledged; returns (updated acked set, newly acknowledged set). -/
def update_acked_from_sack_ranges (ranges : List (ℕ × ℕ)) (total : ℕ) (acked : Finset ℕ) :
    Finset ℕ × Finset ℕ :=
  ranges.foldl
    (fun st r =>
      (List.range' r.1 (min (r.1 + r.2) total - r.1)).foldl
        (fun st seq => if seq ∉ st.1 then (insert seq st.1, insert seq st.2) else st) st)
    (acked, ∅)

/-- Translation of `process_fast_retransmit` (lines 93-113) with
`LOOKBACK_WINDOW = 20`: for each newly acknowledged sequence in ascending
order, the first still-unacknowledged sequence in the 20-wide window
before it has its ahead-count incremented; at 3 it is marked for urgent
retransmission and its count resets. -/
def process_fast_retransmit (newAcks : Finset ℕ) (acked : Finset ℕ)
    (ahead : ℕ → ℕ) (urgent : Finset ℕ) : (ℕ → ℕ) × Finset ℕ :=
  (newAcks.sort (· ≤ ·)).foldl
    (fun st ackedSeq =>
      match (List.range' (ackedSeq - 20) (ackedSeq - (ackedSeq - 20))).find?
          (fun q => decide (q ∉ acked)) with
      | none => st
      | some prior =>
        let c := st.1 prior + 1
        if 3 ≤ c then (fun k => if k = prior then 0 else st.1 k, insert prior st.2)
        else (fun k => if k = prior then c else st.1 k, st.2))
    (ahead, urgent)

/-- RTT sampling on cumulative advance in `receive_sacks` (lines 258-264):
the first sequence in [old, ne) whose recorded send time is set supplies
one sample `now - send_time` to `update_rtt`. -/
def p1RttFromCum (now : ℚ) (allp : ℕ → Option ℚ) (old ne : ℕ) (r : P1Rtt) : P1Rtt :=
  match (List.range' old (ne - old)).find? (fun s => (allp s).isSome) with
  | some s =>
    match allp s with
    | some t => r.update_rtt (now - t)
    | none => r
  | none => r

/-- State of the part1 sender as touched by `receive_sacks`.
`all_packets` maps a sequence number to its last send time (`None` when
not yet sent); the packet bytes stored alongside never influence these
updates and are omitted. -/
@[ext]
structure P1State where
  next_expected : ℕ
  acked_packets : Finset ℕ
  ahead_acked_count : ℕ → ℕ
  urgent_retransmit : Finset ℕ
  sack_ranges : List (ℕ × ℕ)
  rtt : P1Rtt
  eof_acked : Bool
  all_packets : ℕ → Option ℚ

/-- One datagram processed by `receive_sacks` (part1 `Server.py`, lines
219-264): a datagram of at least 4 bytes whose first word decodes to
EOF_ACK_SEQ = 0xFFFFFFFE sets `eof_acked` and changes nothing else;
otherwise the datagram is parsed as a SACK (dropped when shorter than 20
bytes), and the cumulative ACK, SACK ranges, fast-retransmit bookkeeping
and RTT estimate are updated. -/
def processDatagram (total : ℕ) (now : ℚ) (s : P1State) (data : List ℕ) : P1State :=
  if 4 ≤ data.length ∧
      unpackU32 (data.getD 0 0) (data.getD 1 0) (data.getD 2 0) (data.getD 3 0)
        = 4294967294 then
    { s with eof_acked := true }
  else
    match parse_sack data with
    | (none, _) => s
    | (some neIn, ranges) =>
      let old := s.next_expected
      let ne := max s.next_expected neIn
      let cum := addCumAcks total old ne s.acked_packets
      let sck := update_acked_from_sack_ranges ranges total cum.1
      let newAcks := cum.2 ∪ sck.2
      let fr :=
        if newAcks = ∅ then (s.ahead_acked_count, s.urgent_retransmit)
        else process_fast_retransmit newAcks sck.1 s.ahead_acked_count s.urgent_retransmit
      { s with
        next_expected := ne
        acked_packets := sck.1
        sack_ranges := ranges
        ahead_acked_count := fr.1
        urgent_retransmit := fr.2
        rtt := p1RttFromCum now s.all_packets old ne s.rtt }

/-- Claim C9: in part1 the `eof_acked` flag is monotone — no datagram
handling ever clears it — and it is set by any received datagram of at
least 4 bytes whose first four bytes decode to 0xFFFFFFFE, whatever the
rest of the state (in particular even before any EOF frame was sent);
and when `eof_acked` is already set (a constantly-true observation
sequence), `send_eof` returns True after zero EOF transmissions. -/
theorem c9_eof_acked_monotone (total : ℕ) (now : ℚ) (s : P1State) (data : List ℕ) :
    (s.eof_acked = true → (processDatagram total now s data).eof_acked = true) ∧
    (4 ≤ data.length →
      unpackU32 (data.getD 0 0) (data.getD 1 0) (data.getD 2 0) (data.getD 3 0)
        = 4294967294 →
      (processDatagram total now s data).eof_acked = true) ∧
    send_eof (fun _ => true) = (0, true) := by
  refine ⟨fun h => ?_, fun h4 hv => ?_, rfl⟩
  · rw [processDatagram]
    split
    · rfl
    · rcases hp : parse_sack data with ⟨o, ranges⟩
      cases o <;> simp [h]
  · rw [processDatagram, if_pos ⟨h4, hv⟩]

theorem c9_eof_acked_monotone_witness :
    (processDatagram 1 0
        ⟨0, ∅, fun _ => 0, ∅, [], ⟨1 / 2, 1 / 4, 4 / 5⟩, false, fun _ => none⟩
        [255, 255, 255, 254]).eof_acked = true :=
  (c9_eof_acked_monotone 1 0
      ⟨0, ∅, fun _ => 0, ∅, [], ⟨1 / 2, 1 / 4, 4 / 5⟩, false, fun _ => none⟩
      [255, 255, 255, 254]).2.1 (by norm_num) (by decide)

theorem c5_karn_rule_witness :
    wsAckRttStep ⟨1 / 2, 1 / 4, 1⟩ true 2 (7 / 2) 3 = ⟨1 / 2, 1 / 4, 1⟩ ∧ 0 < 2 :=
  ⟨c5_karn_rule ⟨1 / 2, 1 / 4, 1⟩ true 2 (7 / 2) 3 (by norm_num), by norm_num⟩

/-! ## Part2 CUBIC congestion controller and sender loop (`p2_server.py`) -/

/-- CUBIC multiplicative-decrease factor `CUBIC_BETA = 0.8`. -/
def CUBIC_BETA : ℚ := 4 / 5

/-- The two congestion events `on_loss_detected` distinguishes. -/
inductive LossType
  | timeout
  | fastRetransmit
deriving DecidableEq

/-- Congestion-control state of `CubicCongestionControl` in `p2_server.py`.
`cwnd`, `ssthresh` and `tcp_cwnd` only ever hold integer byte counts in
the source; `w_max`, `w_last_max`, `epoch_start` (with sentinel -1 for
"uninitialised") and `K` are Python floats, modelled as exact rationals.
The `cwnd_history` telemetry and `last_sample_time` are plotting-only and
omitted. -/
@[ext]
structure CubicState where
  cwnd : ℕ
  ssthresh : ℕ
  w_max : ℚ
  w_last_max : ℚ
  epoch_start : ℚ
  K : ℚ
  ack_count : ℕ
  cwnd_cnt : ℕ
  in_slow_start : Bool
  tcp_cwnd : ℕ
deriving DecidableEq

/-- Fast-convergence adjustment shared by both branches of
`on_loss_detected` (lines 144-150 and 162-167), with
`FAST_CONVERGENCE = True`: returns the new `(w_last_max, w_max)`. -/
def fastConvergence (c : CubicState) : ℚ × ℚ :=
  if 0 < c.w_max ∧ (c.cwnd : ℚ) < c.w_last_max then
    (c.w_max, (c.cwnd : ℚ) * (1 + CUBIC_BETA) / 2)
  else (c.w_max, (c.cwnd : ℚ))

/-- Translation of `CubicCongestionControl.on_loss_detected`
(`p2_server.py` lines 136-179).  In the timeout branch the source line
`int(self.cwnd * 0.5)` computes a value and discards it, so `cwnd` is
left unchanged there (the adjacent comment says "Timeout: severe, reset
to 1 MSS"); in the fast-retransmit branch `int(cwnd * 0.8)` is modelled
exactly as `cwnd * 4 / 5` on ℕ. -/
def CubicState.on_loss_detected (c : CubicState) : LossType → CubicState
  | .timeout =>
    let p := fastConvergence c
    { c with ssthresh := max (c.cwnd / 2) (2 * MSS),
             w_last_max := p.1, w_max := p.2,
             epoch_start := -1, K := 0, ack_count := 0, cwnd_cnt := 0,
             in_slow_start := true, tcp_cwnd := MSS }
  | .fastRetransmit =>
    let p := fastConvergence c
    let cwnd' := c.cwnd * 4 / 5
    { c with cwnd := cwnd', ssthresh := max cwnd' (2 * MSS),
             w_last_max := p.1, w_max := p.2,
             epoch_start := -1, K := 0, ack_count := 0, cwnd_cnt := 0,
             in_slow_start := false, tcp_cwnd := cwnd' }

/-- Translation of `CubicCongestionControl.on_ack` (lines 55-65).  Below
`ssthresh`, slow start adds the acknowledged bytes exactly.  Otherwise
`_cubic_update` grows `cwnd` by an amount computed from wall-clock time
with floating-point cube arithmetic: every path of `_cubic_update` either
leaves `cwnd` unchanged or increases it, so that increment is abstracted
by the parameter `delta` (its epoch / K / ack-counter bookkeeping is
time-dependent in the same way and is not tracked across this call; no
claim reads those fields after an ACK). -/
def CubicState.on_ack (c : CubicState) (bytes_acked delta : ℕ) : CubicState :=
  if c.cwnd < c.ssthresh then
    { c with cwnd := c.cwnd + bytes_acked, in_slow_start := true }
  else
    { c with cwnd := c.cwnd + delta, in_slow_start := false }

/-- Initial controller state from `CubicCongestionControl.__init__`:
`cwnd = INITIAL_CWND = 1·MSS`, `ssthresh = INITIAL_SSTHRESH = 128·MSS`. -/
def initCubic : CubicState :=
  { cwnd := MSS, ssthresh := 128 * MSS, w_max := 0, w_last_max := 0,
    epoch_start := 0, K := 0, ack_count := 0, cwnd_cnt := 0,
    in_slow_start := true, tcp_cwnd := MSS }

/-- Sender state of `ReliableUDPServer.send_file` in `p2_server.py`.
`sent` is the key set of `sent_packets` (its values — payload bytes, send
time, and a retransmit count that is stored as 0 on every transmission —
never influence the modelled fields); `dup` is `dup_ack_count` as a total
map with default 0; the RTT estimator is `P2Rtt`, modelled separately,
since none of these fields read it. -/
@[ext]
structure P2Sender where
  base : ℕ
  next_seq : ℕ
  last_ack : ℕ
  dup : ℕ → ℕ
  sent : Finset ℕ
  cc : CubicState

/-- Bytes in flight as `send_file` computes them:
`(next_seq_num - base) * MSS`. -/
def inflight (s : P2Sender) : ℕ := (s.next_seq - s.base) * MSS

/-- `get_effective_window` (lines 286-288): `max(0, int(cwnd) - inflight)`,
which on ℕ is truncated subtraction. -/
def get_effective_window (s : P2Sender) : ℕ := s.cc.cwnd - inflight s

/-- One iteration of the dispatch loop in `send_file` (lines 315-318),
which runs while `next_seq_num < total_chunks` and the effective window
has room for a full segment: a not-yet-recorded sequence is transmitted
(`send_packet` records it, an already-recorded one is skipped), and
`next_seq_num` advances either way. -/
def dispatchStep (s : P2Sender) : P2Sender :=
  { s with sent := insert s.next_seq s.sent, next_seq := s.next_seq + 1 }

/-- Result of processing one ACK datagram: the new sender state, whether
the third-duplicate fast retransmit fired, and which sequence (if any)
was retransmitted. -/
structure AckResult where
  st : P2Sender
  fired : Bool
  retransmitted : Option ℕ

/-- ACK handling in `send_file` (lines 330-369), before the SACK blocks:
a duplicate of `last_ack` bumps its counter and, exactly at 3, signals
fast_retransmit to the controller and resends that segment (when in
range); a window-advancing ACK feeds `on_ack`, drops
`[base, min(ack, total))` from `sent_packets` and `dup_ack_count`, and
advances `base` and `last_ack`; any other ACK changes nothing.  The
RTT-estimator update at lines 334-338 touches only the separately
modelled `P2Rtt` state. -/
def handleAckCore (total delta ack_num : ℕ) (s : P2Sender) : AckResult :=
  if ack_num = s.last_ack then
    if s.dup s.last_ack + 1 = 3 then
      if s.last_ack < total then
        ⟨{ s with
            dup := (fun k => if k = s.last_ack then s.dup s.last_ack + 1 else s.dup k),
            cc := s.cc.on_loss_detected .fastRetransmit,
            sent := insert s.last_ack s.sent }, true, some s.last_ack⟩
      else
        ⟨{ s with
            dup := (fun k => if k = s.last_ack then s.dup s.last_ack + 1 else s.dup k),
            cc := s.cc.on_loss_detected .fastRetransmit }, true, none⟩
    else
      ⟨{ s with
          dup := (fun k => if k = s.last_ack then s.dup s.last_ack + 1 else s.dup k) },
        false, none⟩
  else if s.base < ack_num then
    ⟨{ s with
        cc := (s.cc.on_ack ((ack_num - s.base) * MSS) delta),
        sent := s.sent.filter (fun k => ¬(s.base ≤ k ∧ k < min ack_num total)),
        dup := (fun k => if s.base ≤ k ∧ k < min ack_num total then 0 else s.dup k),
        base := ack_num, last_ack := ack_num }, false, none⟩
  else ⟨s, false, none⟩

/-- Full ACK-datagram handling: `handleAckCore` followed by the SACK-block
loop of `send_file` (lines 372-374), where each block `(start, end)`
drops `[start, min(end, total))` from `sent_packets`. -/
def handleAck (total delta ack_num : ℕ) (sacks : List (ℕ × ℕ)) (s : P2Sender) : AckResult :=
  let r := handleAckCore total delta ack_num s
  ⟨{ r.st with
      sent := sacks.foldl
        (fun t b => t.filter (fun k => ¬(b.1 ≤ k ∧ k < min b.2 total))) r.st.sent },
    r.fired, r.retransmitted⟩

theorem handleAck_base (total delta ack_num : ℕ) (sacks : List (ℕ × ℕ)) (s : P2Sender) :
    (handleAck total delta ack_num sacks s).st.base
      = (handleAckCore total delta ack_num s).st.base := rfl

theorem handleAck_next_seq (total delta ack_num : ℕ) (sacks : List (ℕ × ℕ)) (s : P2Sender) :
    (handleAck total delta ack_num sacks s).st.next_seq
      = (handleAckCore total delta ack_num s).st.next_seq := rfl

theorem handleAck_last_ack (total delta ack_num : ℕ) (sacks : List (ℕ × ℕ)) (s : P2Sender) :
    (handleAck total delta ack_num sacks s).st.last_ack
      = (handleAckCore total delta ack_num s).st.last_ack := rfl

theorem handleAck_dup (total delta ack_num : ℕ) (sacks : List (ℕ × ℕ)) (s : P2Sender) :
    (handleAck total delta ack_num sacks s).st.dup
      = (handleAckCore total delta ack_num s).st.dup := rfl

theorem handleAck_cc (total delta ack_num : ℕ) (sacks : List (ℕ × ℕ)) (s : P2Sender) :
    (handleAck total delta ack_num sacks s).st.cc
      = (handleAckCore total delta ack_num s).st.cc := rfl

theorem handleAck_fired (total delta ack_num : ℕ) (sacks : List (ℕ × ℕ)) (s : P2Sender) :
    (handleAck total delta ack_num sacks s).fired
      = (handleAckCore total delta ack_num s).fired := rfl

theorem handleAck_retransmitted (total delta ack_num : ℕ) (sacks : List (ℕ × ℕ))
    (s : P2Sender) :
    (handleAck total delta ack_num sacks s).retransmitted
      = (handleAckCore total delta ack_num s).retransmitted := rfl

/-- Retransmission-timer expiry in `send_file` (lines 376-389), reached
only while `base < total_chunks`: the timeout congestion event is
signalled (which, per the source, leaves `cwnd` unchanged) and the base
segment is retransmitted. -/
def timeoutStep (s : P2Sender) : P2Sender :=
  { s with cc := s.cc.on_loss_detected .timeout, sent := insert s.base s.sent }

/-- One observable action of the `send_file` loop. -/
inductive P2Event
  | dispatch
  | ackEvent (ack_num : ℕ) (sacks : List (ℕ × ℕ)) (delta : ℕ)
  | timeoutEvent

/-- Labelled step relation of the `while base < total_chunks` loop in
`send_file`: one dispatch-loop iteration, one received ACK datagram
(`delta` abstracts the time-driven congestion-avoidance increment), or
one socket timeout. -/
inductive P2Step (total : ℕ) : P2Sender → P2Event → P2Sender → Prop
  | dispatch {s : P2Sender} (hloop : s.base < total) (hseq : s.next_seq < total)
      (hwin : MSS ≤ get_effective_window s) :
      P2Step total s .dispatch (dispatchStep s)
  | ack {s : P2Sender} (ack_num : ℕ) (sacks : List (ℕ × ℕ)) (delta : ℕ)
      (hloop : s.base < total) :
      P2Step total s (.ackEvent ack_num sacks delta) (handleAck total delta ack_num sacks s).st
  | timeout {s : P2Sender} (hloop : s.base < total) :
      P2Step total s .timeoutEvent (timeoutStep s)

/-- Sender state at the top of `send_file`: `base = next_seq_num = 0`, no
duplicate counts, no recorded packets, fresh controller; `last_ack`
starts at 0. -/
def initSender : P2Sender :=
  { base := 0, next_seq := 0, last_ack := 0, dup := (fun _ => 0), sent := ∅, cc := initCubic }

/-- Restriction to acknowledgments the repository's receiver can produce:
its cumulative ACK is `expected_seq`, which never exceeds the highest
received sequence + 1 and hence never exceeds the sender's
`next_seq_num`. -/
def eventFromPeer (s : P2Sender) : P2Event → Prop
  | .ackEvent n _ _ => n ≤ s.next_seq
  | _ => True

/-- States of `send_file` reachable from the start of the transfer under
acknowledgments from the repository's receiver. -/
inductive ReachableSender (total : ℕ) : P2Sender → Prop
  | init : ReachableSender total initSender
  | step {s e s'} : ReachableSender total s → P2Step total s e s' → eventFromPeer s e →
      ReachableSender total s'

/-- Loop invariant of `send_file`: `base ≤ next_seq_num`, `last_ack`
tracks `base`, and only the current base can carry a nonzero duplicate
count. -/
def SenderInv (s : P2Sender) : Prop :=
  s.base ≤ s.next_seq ∧ s.last_ack = s.base ∧ ∀ k, k ≠ s.base → s.dup k = 0

theorem senderInv_init : SenderInv initSender :=
  ⟨le_refl 0, rfl, fun _ _ => rfl⟩

theorem senderInv_handleAckCore {total delta ack_num : ℕ} {s : P2Sender}
    (hs : SenderInv s) (hloop : s.base < total) (hpeer : ack_num ≤ s.next_seq) :
    SenderInv (handleAckCore total delta ack_num s).st := by
  obtain ⟨hbn, hlb, hdup⟩ := hs
  rw [handleAckCore]
  by_cases h1 : ack_num = s.last_ack
  · rw [if_pos h1]
    by_cases h3 : s.dup s.last_ack + 1 = 3
    · rw [if_pos h3]
      by_cases h4 : s.last_ack < total
      · rw [if_pos h4]
        refine ⟨hbn, hlb, fun k hk => ?_⟩
        have hkl : ¬(k = s.last_ack) := by rw [hlb]; exact hk
        show (if k = s.last_ack then s.dup s.last_ack + 1 else s.dup k) = 0
        rw [if_neg hkl]
        exact hdup k hk
      · rw [if_neg h4]
        refine ⟨hbn, hlb, fun k hk => ?_⟩
        have hkl : ¬(k = s.last_ack) := by rw [hlb]; exact hk
        show (if k = s.last_ack then s.dup s.last_ack + 1 else s.dup k) = 0
        rw [if_neg hkl]
        exact hdup k hk
    · rw [if_neg h3]
      refine ⟨hbn, hlb, fun k hk => ?_⟩
      have hkl : ¬(k = s.last_ack) := by rw [hlb]; exact hk
      show (if k = s.last_ack then s.dup s.last_ack + 1 else s.dup k) = 0
      rw [if_neg hkl]
      exact hdup k hk
  · rw [if_neg h1]
    by_cases h2 : s.base < ack_num
    · rw [if_pos h2]
      refine ⟨hpeer, rfl, fun k hk => ?_⟩
      show (if s.base ≤ k ∧ k < min ack_num total then 0 else s.dup k) = 0
      by_cases hr : s.base ≤ k ∧ k < min ack_num total
      · rw [if_pos hr]
      · rw [if_neg hr]
        refine hdup k (fun hkb => hr ?_)
        subst hkb
        exact ⟨le_refl _, lt_min h2 hloop⟩
    · rw [if_neg h2]
      exact ⟨hbn, hlb, hdup⟩

theorem senderInv_handleAck {total delta ack_num : ℕ} {sacks : List (ℕ × ℕ)}
    {s : P2Sender} (hs : SenderInv s) (hloop : s.base < total)
    (hpeer : ack_num ≤ s.next_seq) :
    SenderInv (handleAck total delta ack_num sacks s).st := by
  have h := @senderInv_handleAckCore total delta ack_num s hs hloop hpeer
  exact ⟨by rw [handleAck_base, handleAck_next_seq]; exact h.1,
    by rw [handleAck_base, handleAck_last_ack]; exact h.2.1,
    fun k hk => by
      rw [handleAck_dup]
      exact h.2.2 k (by rw [handleAck_base] at hk; exact hk)⟩

theorem senderInv_step {total : ℕ} {s : P2Sender} {e : P2Event} {s' : P2Sender}
    (hs : SenderInv s) (hstep : P2Step total s e s') (hpeer : eventFromPeer s e) :
    SenderInv s' := by
  cases hstep with
  | dispatch hloop hseq hwin =>
    exact ⟨Nat.le_succ_of_le hs.1, hs.2.1, hs.2.2⟩
  | ack ack_num sacks delta hloop =>
    exact senderInv_handleAck hs hloop hpeer
  | timeout hloop =>
    exact ⟨hs.1, hs.2.1, hs.2.2⟩

theorem senderInv_reachable {total : ℕ} {s : P2Sender} (h : ReachableSender total s) :
    SenderInv s := by
  induction h with
  | init => exact senderInv_init
  | step hr hstep hpeer ih => exact senderInv_step ih hstep hpeer

/-- The sender state reached in a 1-segment transfer by dispatching
segment 0 and then processing three duplicate ACKs for sequence 0. -/
def c1CexState : P2Sender :=
  (handleAck 1 0 0 []
    (handleAck 1 0 0 []
      (handleAck 1 0 0 [] (dispatchStep initSender)).st).st).st

/-- Claim C1, counterexample: the state after one dispatch and three
duplicate ACKs is reachable (the duplicate ACKs come from the genuine
receiver, acknowledging nothing beyond `next_seq_num`), yet its in-flight
byte count, 1·MSS = 1180, exceeds its congestion window,
int(1180 · 0.8) = 944: the third duplicate's fast retransmit shrinks
`cwnd` below the unchanged in-flight count, so `in_flight ≤ cwnd` is not
an invariant of the reachable states. -/
theorem c1_inflight_exceeds_cwnd_cex :
    ReachableSender 1 c1CexState ∧
    c1CexState.base = 0 ∧ c1CexState.next_seq = 1 ∧
    inflight c1CexState = 1180 ∧ c1CexState.cc.cwnd = 944 ∧
    ¬(inflight c1CexState ≤ c1CexState.cc.cwnd) := by
  refine ⟨?_, by decide, by decide, by decide, by decide, by decide⟩
  have h0 : ReachableSender 1 initSender := ReachableSender.init
  have h1 : ReachableSender 1 (dispatchStep initSender) :=
    ReachableSender.step h0 (P2Step.dispatch (by decide) (by decide) (by decide)) trivial
  have h2 := ReachableSender.step h1 (P2Step.ack 0 [] 0 (by decide)) (Nat.zero_le _)
  have h3 := ReachableSender.step h2 (P2Step.ack 0 [] 0 (by decide)) (Nat.zero_le _)
  exact ReachableSender.step h3 (P2Step.ack 0 [] 0 (by decide)) (Nat.zero_le _)

/-- Claim C1 (amended): in every reachable state of the send loop,
`base ≤ next_seq_num`; new-data dispatch only proceeds while
`in_flight + MSS ≤ cwnd` and therefore preserves `in_flight ≤ cwnd`; the
bound is also preserved by non-firing duplicate ACKs, by window-advancing
ACK handling (for acknowledgments the genuine receiver can send), and by
timeout handling (whose congestion event leaves `cwnd` unchanged in this
source); but it is NOT preserved by the fast retransmit on the third
duplicate ACK, which shrinks `cwnd` by the factor 0.8 while in-flight
stays put — see the counterexample. -/
theorem c1_window_discipline_amended :
    (∀ (total : ℕ) (s : P2Sender), ReachableSender total s → s.base ≤ s.next_seq) ∧
    (∀ (total : ℕ) (s s' : P2Sender), P2Step total s .dispatch s' →
      inflight s + MSS ≤ s.cc.cwnd ∧ (s.base ≤ s.next_seq → inflight s' ≤ s'.cc.cwnd)) ∧
    (∀ (total delta ack_num : ℕ) (sacks : List (ℕ × ℕ)) (s : P2Sender),
      ack_num = s.last_ack → s.dup s.last_ack + 1 ≠ 3 →
      inflight s ≤ s.cc.cwnd →
      inflight (handleAck total delta ack_num sacks s).st
        ≤ (handleAck total delta ack_num sacks s).st.cc.cwnd) ∧
    (∀ (total delta ack_num : ℕ) (sacks : List (ℕ × ℕ)) (s : P2Sender),
      ack_num ≠ s.last_ack → ack_num ≤ s.next_seq →
      inflight s ≤ s.cc.cwnd →
      inflight (handleAck total delta ack_num sacks s).st
        ≤ (handleAck total delta ack_num sacks s).st.cc.cwnd) ∧
    (∀ s : P2Sender, inflight s ≤ s.cc.cwnd →
      inflight (timeoutStep s) ≤ (timeoutStep s).cc.cwnd) := by
  refine ⟨?_, ?_, ?_, ?_, ?_⟩
  · intro total s h
    exact (senderInv_reachable h).1
  · intro total s s' hstep
    cases hstep with
    | dispatch hloop hseq hwin =>
      simp only [get_effective_window, inflight, dispatchStep, MSS] at *
      omega
  · intro total delta ack_num sacks s h1 h3 hpre
    simp only [inflight, handleAck_next_seq, handleAck_base, handleAck_cc] at *
    rw [handleAckCore, if_pos h1, if_neg h3]
    exact hpre
  · intro total delta ack_num sacks s h1 hpeer hpre
    simp only [inflight, handleAck_next_seq, handleAck_base, handleAck_cc] at *
    rw [handleAckCore, if_neg h1]
    by_cases h2 : s.base < ack_num
    · rw [if_pos h2]
      have hcw : s.cc.cwnd ≤ (s.cc.on_ack ((ack_num - s.base) * MSS) delta).cwnd := by
        rw [CubicState.on_ack]
        split
        · exact Nat.le_add_right _ _
        · exact Nat.le_add_right _ _
      show (s.next_seq - ack_num) * MSS
          ≤ (s.cc.on_ack ((ack_num - s.base) * MSS) delta).cwnd
      simp only [MSS] at hpre hcw ⊢
      omega
    · rw [if_neg h2]
      exact hpre
  · intro s hpre
    exact hpre

theorem c1_window_discipline_amended_witness :
    initSender.base ≤ initSender.next_seq ∧
    inflight (timeoutStep initSender) ≤ (timeoutStep initSender).cc.cwnd :=
  ⟨c1_window_discipline_amended.1 1 initSender ReachableSender.init,
   c1_window_discipline_amended.2.2.2.2 initSender (by decide)⟩

/-- Claim C2: for every reachable sender state, processing an incoming
cumulative ACK fires the fast-retransmit signal if and only if the ACK
duplicates the current `base` and exactly two duplicates were already
counted (the counter reaches 3 on this one); when it fires, the
congestion controller receives the fast_retransmit event and the base
segment is retransmitted (when still in range); before the counter
reaches 3 nothing fires or is retransmitted; and every window-advancing
ACK resets the duplicate bookkeeping — afterwards both the old base's
and the new base's counters are zero. -/
theorem c2_fast_retransmit_iff (total : ℕ) (s : P2Sender)
    (h : ReachableSender total s) (delta ack_num : ℕ) (sacks : List (ℕ × ℕ)) :
    ((handleAck total delta ack_num sacks s).fired = true
        ↔ ack_num = s.base ∧ s.dup s.base = 2) ∧
    ((handleAck total delta ack_num sacks s).fired = true →
      (handleAck total delta ack_num sacks s).st.cc
          = s.cc.on_loss_detected .fastRetransmit ∧
      (s.base < total →
        (handleAck total delta ack_num sacks s).retransmitted = some s.base)) ∧
    ((handleAck total delta ack_num sacks s).fired = false →
      (handleAck total delta ack_num sacks s).retransmitted = none) ∧
    (s.base < ack_num → s.base < total →
      (handleAck total delta ack_num sacks s).st.base = ack_num ∧
      (handleAck total delta ack_num sacks s).st.dup ack_num = 0 ∧
      (handleAck total delta ack_num sacks s).st.dup s.base = 0) := by
  obtain ⟨hbn, hlb, hdup⟩ := senderInv_reachable h
  simp only [handleAck_fired, handleAck_retransmitted, handleAck_cc, handleAck_base,
    handleAck_dup]
  rw [handleAckCore]
  by_cases h1 : ack_num = s.last_ack
  · rw [if_pos h1]
    by_cases h3 : s.dup s.last_ack + 1 = 3
    · rw [if_pos h3]
      have hrhs : ack_num = s.base ∧ s.dup s.base = 2 := by
        rw [hlb] at h1 h3
        exact ⟨h1, by omega⟩
      by_cases h4 : s.last_ack < total
      · rw [if_pos h4]
        refine ⟨iff_of_true rfl hrhs, fun _ => ⟨rfl, fun _ => ?_⟩,
          fun hff => Bool.noConfusion hff, fun hba _ => ?_⟩
        · show some s.last_ack = some s.base
          rw [hlb]
        · rw [hlb] at h1
          omega
      · rw [if_neg h4]
        refine ⟨iff_of_true rfl hrhs, fun _ => ⟨rfl, fun hbt => ?_⟩,
          fun hff => Bool.noConfusion hff, fun hba _ => ?_⟩
        · rw [hlb] at h4
          exact absurd hbt h4
        · rw [hlb] at h1
          omega
    · rw [if_neg h3]
      refine ⟨iff_of_false (fun hff => Bool.noConfusion hff) ?_,
        fun htt => Bool.noConfusion htt, fun _ => rfl, fun hba _ => ?_⟩
      · rintro ⟨-, hd2⟩
        rw [hlb] at h3
        omega
      · rw [hlb] at h1
        omega
  · rw [if_neg h1]
    by_cases h2 : s.base < ack_num
    · rw [if_pos h2]
      refine ⟨iff_of_false (fun hff => Bool.noConfusion hff) ?_,
        fun htt => Bool.noConfusion htt, fun _ => rfl, fun _ hbt => ⟨rfl, ?_, ?_⟩⟩
      · rintro ⟨hab, -⟩
        omega
      · show (if s.base ≤ ack_num ∧ ack_num < min ack_num total then 0
            else s.dup ack_num) = 0
        rw [if_neg (by intro hc; have := hc.2; omega)]
        exact hdup ack_num (by omega)
      · show (if s.base ≤ s.base ∧ s.base < min ack_num total then 0
            else s.dup s.base) = 0
        rw [if_pos ⟨le_refl _, lt_min h2 hbt⟩]
    · rw [if_neg h2]
      refine ⟨iff_of_false (fun hff => Bool.noConfusion hff) ?_,
        fun htt => Bool.noConfusion htt, fun _ => rfl, fun hba _ => ?_⟩
      · rintro ⟨hab, -⟩
        rw [hlb] at h1
        exact h1 hab
      · exact absurd hba h2

theorem c2_fast_retransmit_iff_witness :
    (handleAck 1 0 0 [] initSender).fired = false ∧
    (handleAck 1 0 0 [] initSender).retransmitted = none := by
  have h := c2_fast_retransmit_iff 1 initSender ReachableSender.init 0 0 []
  have hf : (handleAck 1 0 0 [] initSender).fired = false := by
    rcases hb : (handleAck 1 0 0 [] initSender).fired with _ | _
    · rfl
    · exact absurd (h.1.mp hb).2 (by decide)
  exact ⟨hf, h.2.2.1 hf⟩

/-- The controller state used for the timeout evaluation: congestion
window of 10·MSS bytes, otherwise as at initialisation. -/
def c3State : CubicState :=
  { cwnd := 11800, ssthresh := 151040, w_max := 0, w_last_max := 0,
    epoch_start := 0, K := 0, ack_count := 0, cwnd_cnt := 0,
    in_slow_start := true, tcp_cwnd := 1180 }

/-- Claim C3: evaluating the timeout congestion event of
`CubicCongestionControl.on_loss_detected` at cwnd = 10·MSS.  The code
enters slow start and re-initialises the epoch as the claim states, and
`cwnd` does not grow, but — against the claim and the source's own
comment "Timeout: severe, reset to 1 MSS" — `cwnd` stays 11800 instead of
becoming 1·MSS = 1180 (the line `int(self.cwnd * 0.5)` discards its
result), and `ssthresh` becomes max(cwnd // 2, 2·MSS) = 5900 rather than
the claimed max(cwnd·β, 2·MSS) = 9440 (β = 0.8 here). -/
theorem c3_cubic_timeout_bug :
    (c3State.on_loss_detected .timeout).cwnd = 11800 ∧
    (c3State.on_loss_detected .timeout).cwnd ≠ 1 * MSS ∧
    (c3State.on_loss_detected .timeout).ssthresh = 5900 ∧
    max ((11800 : ℚ) * CUBIC_BETA) ((2 * MSS : ℕ) : ℚ) = 9440 ∧
    ((c3State.on_loss_detected .timeout).ssthresh : ℚ) ≠ 9440 ∧
    (c3State.on_loss_detected .timeout).in_slow_start = true ∧
    (c3State.on_loss_detected .timeout).epoch_start = -1 ∧
    (c3State.on_loss_detected .timeout).cwnd ≤ c3State.cwnd := by
  refine ⟨by decide, by decide, by decide, ?_, by decide, by decide, by decide, by decide⟩
  rw [CUBIC_BETA, MSS]
  rw [max_eq_left (by norm_num)]
  norm_num

end Transport
